import Mathlib

/-!
Verification of the analytics aggregation core of the Jyuratodus repository:
the function `computeAdvancedAnalytics(rows, peopleToGroup, peopleToShift)`
of the Insights component, together with its helpers `isPlaceholderName`,
`resolvePersonName`, the per-row revenue computation, alert generation and
trend preparation.

Modelling conventions (shallow embedding of the JavaScript source):
* JS field values that the routine inspects are modelled by `JSVal`
  (`undefined`/`null`/finite number/string).  Numbers are exact rationals;
  the claims under study only involve values where IEEE-754 rounding plays
  no role.  `NaN` arises only as the result of `Number(...)` conversion and
  is modelled by `JSNum.nan`.
* JS objects used as dictionaries are association lists in insertion order;
  property enumeration (`Object.keys`/`Object.entries`) reorders integer-like
  keys first, which `jsOwnKeys` reproduces.
* `new Date(...)` is modelled for the deterministic fragment the routine
  relies on: ISO date-only strings (interpreted as UTC midnight, as in
  ECMA-262) and ISO date-time strings carrying an explicit UTC offset.
  Date-time strings without an offset are interpreted relative to the host
  timezone by JS and are outside the deterministic model.  Strings the model
  does not recognise behave like V8's `Invalid Date`.
* `toLocaleDateString()` depends on the host locale and timezone; it is
  modelled as the en-US rendering of a UTC host (`M/D/YYYY`).  The claims
  about the trend series only rely on the fact that a valid date key never
  renders as the literal string `"Unknown Date"`.
* Alert `message` strings are presentation text built with `toFixed` (an
  IEEE-754-dependent rendering); alerts are modelled by their `type` and
  `title`, which is what the claims distinguish.
-/

namespace Jyuratodus

/-- A JavaScript value as stored in the record fields that
`computeAdvancedAnalytics` reads: `undefined`, `null`, a finite number, or a
string. -/
inductive JSVal where
  | undefined
  | null
  | num (q : ℚ)
  | str (s : String)
deriving Repr, DecidableEq

/-- Result of JS `Number(...)` conversion: a finite number or `NaN`. -/
inductive JSNum where
  | nan
  | val (q : ℚ)
deriving Repr, DecidableEq

/-- JS truthiness of a `JSVal`.  (`undefined`, `null`, `0`, `""` are falsy.) -/
def truthy : JSVal → Bool
  | .undefined => false
  | .null => false
  | .num q => decide (q ≠ 0)
  | .str s => s != ""

/-- JS `a || b` on field values: `b` if `a` is falsy, otherwise `a`. -/
def jsOr (a b : JSVal) : JSVal := if truthy a then a else b

/-- Characters stripped by `String.prototype.trim` (the ASCII fragment plus
no-break space; the records at hand contain no exotic Unicode spaces). -/
def jsWhitespace (c : Char) : Bool :=
  c == ' ' || c == '\t' || c == '\n' || c == '\r' ||
  c == Char.ofNat 11 || c == Char.ofNat 12 || c == Char.ofNat 160

/-- JS `String.prototype.trim`. -/
def jsTrim (s : String) : String :=
  ⟨((s.data.dropWhile jsWhitespace).reverse.dropWhile jsWhitespace).reverse⟩

/-- JS `String.prototype.toLowerCase` (ASCII fragment, which covers the
placeholder tokens the source compares against). -/
def jsToLower (s : String) : String := ⟨s.data.map Char.toLower⟩

/-- Decimal digits of a natural number (fuel-bounded helper). -/
def natDigits : Nat → Nat → List Char
  | 0, _ => []
  | fuel + 1, n => if n = 0 then [] else natDigits fuel (n / 10) ++ [Char.ofNat (48 + n % 10)]

/-- Decimal rendering of a natural number. -/
def natToStr (n : Nat) : String := if n = 0 then "0" else ⟨natDigits 16 n⟩

/-- Decimal rendering of an integer. -/
def intToStr (i : Int) : String :=
  if i < 0 then "-" ++ natToStr i.natAbs else natToStr i.natAbs

/-- JS `String(v)` on the values that reach it in this code.  Only strings
and integral numbers ever do (the name candidates in the data are strings);
non-integral numbers use the rational rendering, unreached here. -/
def jsToString : JSVal → String
  | .undefined => "undefined"
  | .null => "null"
  | .num q => if q.den = 1 then intToStr q.num else toString q
  | .str s => s

/-- Numeric value of a digit list (most significant first). -/
def digitsVal (ds : List Char) : Nat :=
  ds.foldl (fun a c => a * 10 + (c.toNat - 48)) 0

/-- Parse an unsigned decimal literal (`123`, `12.5`, `.5`, `5.`), the
fragment of JS numeric-string grammar the fine columns use (no exponents,
no hex). -/
def parseDec (cs : List Char) : Option ℚ :=
  let ip := cs.takeWhile Char.isDigit
  let rest := cs.dropWhile Char.isDigit
  match rest with
  | [] => if ip.isEmpty then none else some (digitsVal ip : ℚ)
  | '.' :: rest2 =>
    let fp := rest2.takeWhile Char.isDigit
    let rest3 := rest2.dropWhile Char.isDigit
    if rest3.isEmpty && !(ip.isEmpty && fp.isEmpty) then
      some ((digitsVal ip : ℚ) + (digitsVal fp : ℚ) / (10 ^ fp.length : ℚ))
    else none
  | _ => none

/-- JS `Number(string)`: whitespace-trimmed; empty string is `0`; otherwise
an optionally signed decimal literal, else `NaN`. -/
def jsStrToNum (s : String) : JSNum :=
  let t := jsTrim s
  if t = "" then .val 0
  else
    match t.data with
    | '-' :: rest => match parseDec rest with | some q => .val (-q) | none => .nan
    | '+' :: rest => match parseDec rest with | some q => .val q | none => .nan
    | cs => match parseDec cs with | some q => .val q | none => .nan

/-- JS `Number(v)` conversion. -/
def toNumber : JSVal → JSNum
  | .undefined => .nan
  | .null => .val 0
  | .num q => .val q
  | .str s => jsStrToNum s

/-- JS `x || 0` applied to a `Number(...)` result: the falsy numbers are
exactly `0` and `NaN`, so this collapses `NaN` to `0` and is the identity on
finite values. -/
def numOr0 : JSNum → ℚ
  | .nan => 0
  | .val q => q

/-- One weighbridge transaction record as read by the analytics routine:
the canonical fields plus the `_raw` original-column map used as fallback. -/
structure TransactionRecord where
  person : JSVal := .undefined
  raw : List (String × JSVal) := []
  impounded : Bool := false
  date : JSVal := .undefined
  truckId : Option String := none
  amountDue : JSVal := .undefined
  gvmFine : JSVal := .undefined
  d1Fine : JSVal := .undefined
  d2Fine : JSVal := .undefined
  d3Fine : JSVal := .undefined
  d4Fine : JSVal := .undefined
  awkwardLoadFine : JSVal := .undefined
  amountDueDriver : JSVal := .undefined
deriving Repr, DecidableEq

/-- `r._raw?.[k]`: optional-chained property read on the raw column map
(`undefined` when the map or the key is absent). -/
def rawGet (r : TransactionRecord) (k : String) : JSVal :=
  (r.raw.lookup k).getD .undefined

/-- `isPlaceholderName` from the source: `undefined`/`null`, empty or
whitespace-only strings, the case-insensitive tokens
`n/a, na, none, unknown, -`, and the `/^n\.?a\.?$/i` pattern. -/
def isPlaceholderName (v : JSVal) : Bool :=
  match v with
  | .undefined => true
  | .null => true
  | _ =>
    let s := jsTrim (jsToString v)
    if s = "" then true
    else
      ["n/a", "na", "none", "unknown", "-"].contains (jsToLower s) ||
      ["na", "n.a", "na.", "n.a."].contains (jsToLower s)

/-- `resolvePersonName` from the source: first truthy, non-placeholder
candidate among the canonical `person` field and the raw-column fallbacks,
trimmed; `"Unknown"` when none qualifies. -/
def resolvePersonName (r : TransactionRecord) : String :=
  let candidates := [r.person, rawGet r "User Full Name", rawGet r "Driver Name",
    rawGet r "Name", rawGet r "Driver", rawGet r "Owner Name"]
  match candidates.find? (fun c => truthy c && !isPlaceholderName c) with
  | some c => jsTrim (jsToString c)
  | none => "Unknown"

/-- `mapping[person] || 'Unassigned'`: assignment lookup with falsy (absent
or empty) values replaced by `"Unassigned"`. -/
def lookupAssign (m : List (String × String)) (k : String) : String :=
  match m.lookup k with
  | some v => if v = "" then "Unassigned" else v
  | none => "Unassigned"

/-! ### Date model -/

/-- Digit value of a character, when it is a decimal digit. -/
def digitOf (c : Char) : Option Nat :=
  if '0' ≤ c ∧ c ≤ '9' then some (c.toNat - 48) else none

/-- Two-digit number. -/
def num2 (a b : Char) : Option Nat := do
  let x ← digitOf a; let y ← digitOf b; pure (10 * x + y)

/-- Four-digit number. -/
def num4 (a b c d : Char) : Option Nat := do
  let x ← num2 a b; let y ← num2 c d; pure (100 * x + y)

/-- Leap-year test of the proleptic Gregorian calendar. -/
def isLeapYear (y : Int) : Bool :=
  y % 4 = 0 && (y % 100 ≠ 0 || y % 400 = 0)

/-- Number of days in a month. -/
def daysInMonth (y m : Int) : Int :=
  if m = 2 then (if isLeapYear y then 29 else 28)
  else if m = 4 ∨ m = 6 ∨ m = 9 ∨ m = 11 then 30 else 31

/-- Days since 1970-01-01 of a Gregorian calendar date (floor-division form
of the standard civil-calendar algorithm). -/
def daysFromCivil (y m d : Int) : Int :=
  let y2 := if m ≤ 2 then y - 1 else y
  let era := Int.fdiv y2 400
  let yoe := y2 - era * 400
  let mp := (m + 9) % 12
  let doy := (153 * mp + 2) / 5 + d - 1
  let doe := yoe * 365 + yoe / 4 - yoe / 100 + doy
  era * 146097 + doe - 719468

/-- Gregorian calendar date (year, month, day) of a days-since-epoch count
(inverse of `daysFromCivil`). -/
def civilFromDays (z : Int) : Int × Int × Int :=
  let z2 := z + 719468
  let era := Int.fdiv z2 146097
  let doe := z2 - era * 146097
  let yoe := (doe - doe / 1460 + doe / 36524 - doe / 146096) / 365
  let y := yoe + era * 400
  let doy := doe - (365 * yoe + yoe / 4 - yoe / 100)
  let mp := (5 * doy + 2) / 153
  let d := doy - (153 * mp + 2) / 5 + 1
  let m := if mp < 10 then mp + 3 else mp - 9
  (if m ≤ 2 then y + 1 else y, m, d)

/-- UTC offset suffix of an ISO date-time: `Z` or `±HH:MM`, in minutes. -/
def parseOffset : List Char → Option Int
  | ['Z'] => some 0
  | ['+', h1, h2, ':', m1, m2] => do
      let h ← num2 h1 h2; let m ← num2 m1 m2
      guard (h ≤ 23 ∧ m ≤ 59); pure ((h : Int) * 60 + m)
  | ['-', h1, h2, ':', m1, m2] => do
      let h ← num2 h1 h2; let m ← num2 m1 m2
      guard (h ≤ 23 ∧ m ≤ 59); pure (-((h : Int) * 60 + m))
  | _ => none

/-- Time-of-day part `HH:MM[:SS[.sss]]` followed by a mandatory UTC offset
(offset-free date-times are host-timezone dependent and outside the model);
returns (milliseconds into the day, offset in minutes). -/
def parseTime : List Char → Option (Int × Int)
  | h1 :: h2 :: ':' :: m1 :: m2 :: rest => do
      let h ← num2 h1 h2; let mi ← num2 m1 m2
      guard (h ≤ 23 ∧ mi ≤ 59)
      match rest with
      | ':' :: s1 :: s2 :: rest2 => do
          let sec ← num2 s1 s2
          guard (sec ≤ 59)
          match rest2 with
          | '.' :: a :: b :: c :: rest3 => do
              let x ← digitOf a; let y ← digitOf b; let z ← digitOf c
              let off ← parseOffset rest3
              pure ((((h * 3600 + mi * 60 + sec) * 1000 : Nat) + (100 * x + 10 * y + z) : Int), off)
          | _ => do
              let off ← parseOffset rest2
              pure (((h * 3600 + mi * 60 + sec) * 1000 : Nat), off)
      | _ => do
          let off ← parseOffset rest
          pure (((h * 3600 + mi * 60) * 1000 : Nat), off)
  | _ => none

/-- ISO-8601 parsing of `new Date(string)` (the deterministic fragment):
`YYYY-MM-DD` is UTC midnight; `YYYY-MM-DDTHH:MM[:SS[.sss]]` requires an
explicit offset.  Returns the epoch time in milliseconds, `none` for an
invalid date. -/
def parseISODate (s : String) : Option Int :=
  match s.data with
  | y1 :: y2 :: y3 :: y4 :: '-' :: mo1 :: mo2 :: '-' :: d1 :: d2 :: rest => do
      let y ← num4 y1 y2 y3 y4
      let mo ← num2 mo1 mo2
      let d ← num2 d1 d2
      guard (1 ≤ mo ∧ mo ≤ 12)
      guard (1 ≤ d ∧ (d : Int) ≤ daysInMonth y mo)
      let dayMs := daysFromCivil y mo d * 86400000
      match rest with
      | [] => pure dayMs
      | 'T' :: timeRest => do
          let (tms, off) ← parseTime timeRest
          pure (dayMs + tms - off * 60000)
      | _ => none
  | _ => none

/-- `new Date(v).getTime()` for the field values the routine feeds it:
strings via ISO parsing, numbers as epoch milliseconds truncated toward zero
and clipped to the JS time range; `none` models an Invalid Date. -/
def jsParseDate : JSVal → Option Int
  | .undefined => none
  | .null => some 0
  | .num q =>
      let t := q.num / (q.den : Int)
      if t.natAbs ≤ 8640000000000000 then some t else none
  | .str s => parseISODate s

/-- Zero-padded two-digit rendering. -/
def pad2 (n : Int) : String := if n < 10 then "0" ++ intToStr n else intToStr n

/-- Zero-padded four-digit rendering. -/
def pad4 (n : Int) : String :=
  if n < 10 then "000" ++ intToStr n
  else if n < 100 then "00" ++ intToStr n
  else if n < 1000 then "0" ++ intToStr n
  else intToStr n

/-- The date part of `Date.prototype.toISOString` (i.e.
`toISOString().split('T')[0]`): the UTC calendar date of the instant, in
`YYYY-MM-DD` form. -/
def isoDateString (ms : Int) : String :=
  let c := civilFromDays (Int.fdiv ms 86400000)
  pad4 c.1 ++ "-" ++ pad2 c.2.1 ++ "-" ++ pad2 c.2.2

/-- The date-string candidate chain
`r.date || r._raw?.date || r._raw?.Date || r._raw?.datetime || r._raw?.Datetime`. -/
def dateStrOf (r : TransactionRecord) : JSVal :=
  jsOr r.date (jsOr (rawGet r "date") (jsOr (rawGet r "Date")
    (jsOr (rawGet r "datetime") (rawGet r "Datetime"))))

/-- Day-bucket key of a record: the UTC calendar date (`toISOString` date
part) when the date field is truthy and parses, otherwise the literal
`"Unknown Date"`.  (The source's `catch` branch is dead code: `new Date` on
these values never throws.) -/
def dayKeyOf (r : TransactionRecord) : String :=
  let ds := dateStrOf r
  if truthy ds then
    match jsParseDate ds with
    | some ms => isoDateString ms
    | none => "Unknown Date"
  else "Unknown Date"

/-! ### Revenue -/

/-- One fine/amount column: `Number(r.f || r._raw?.[col] || 0) || 0`. -/
def fineVal (direct rawv : JSVal) : ℚ :=
  numOr0 (toNumber (jsOr direct (jsOr rawv (JSVal.num 0))))

/-- Per-row revenue: the sum of the eight fine/amount columns. -/
def rowRevenue (r : TransactionRecord) : ℚ :=
  fineVal r.amountDue (rawGet r "Amount Due") +
  fineVal r.gvmFine (rawGet r "GVM Fine") +
  fineVal r.d1Fine (rawGet r "D1 Fine") +
  fineVal r.d2Fine (rawGet r "D2 Fine") +
  fineVal r.d3Fine (rawGet r "D3 Fine") +
  fineVal r.d4Fine (rawGet r "D4 Fine") +
  fineVal r.awkwardLoadFine (rawGet r "Awkward Load Fine") +
  fineVal r.amountDueDriver (rawGet r "Amount Due Driver")

/-! ### Aggregation pass -/

/-- `m[k] = upd(m[k] ?? dflt)` on an insertion-ordered dictionary: update in
place when the key exists, append otherwise. -/
def bumpWith {β : Type} (upd : β → β) (dflt : β) (k : String) :
    List (String × β) → List (String × β)
  | [] => [(k, upd dflt)]
  | (k', v) :: rest =>
      if k' = k then (k', upd v) :: rest else (k', v) :: bumpWith upd dflt k rest

/-- Record a key in first-seen order (insertion-ordered set/key list). -/
def seenInsert (k : String) (l : List String) : List String :=
  if k ∈ l then l else l ++ [k]

/-- The call-local accumulators of the single aggregation pass. -/
structure AggState where
  perPersonCounts : List (String × Nat)
  perPersonImpounded : List (String × Nat)
  perPersonRevenue : List (String × ℚ)
  perGroupCounts : List (String × Nat)
  perGroupRevenue : List (String × ℚ)
  perShiftCounts : List (String × Nat)
  perShiftRevenue : List (String × ℚ)
  impoundedByShift : List (String × Nat)
  impoundedByGroup : List (String × Nat)
  dailyActivity : List (String × Nat × Nat)
  truckIds : List String
  total : Nat
  totalImpounded : Nat
  totalRevenue : ℚ
deriving Repr, DecidableEq

/-- All accumulators empty / zero. -/
def initState : AggState :=
  ⟨[], [], [], [], [], [], [], [], [], [], [], 0, 0, 0⟩

/-- Daily-activity update: create the `{total: 0, impounded: 0}` bucket on
demand, add the record, and add its impound flag. -/
def bumpDaily (imp : Bool) (k : String) (m : List (String × Nat × Nat)) :
    List (String × Nat × Nat) :=
  bumpWith (fun ti => (ti.1 + 1, if imp then ti.2 + 1 else ti.2)) (0, 0) k m

/-- `if (r.truckId && r.truckId.trim()) truckIds.add(r.truckId.trim())`. -/
def addTruck (t : Option String) (ids : List String) : List String :=
  match t with
  | some v => if v != "" && jsTrim v != "" then seenInsert (jsTrim v) ids else ids
  | none => ids

/-- The body of the `for (const r of rows)` loop. -/
def stepRecord (g s : List (String × String)) (st : AggState)
    (r : TransactionRecord) : AggState :=
  let person := resolvePersonName r
  let group := lookupAssign g person
  let shift := lookupAssign s person
  let dayKey := dayKeyOf r
  let rev := rowRevenue r
  { st with
    total := st.total + 1
    totalRevenue := st.totalRevenue + rev
    perPersonRevenue := bumpWith (· + rev) 0 person st.perPersonRevenue
    perGroupRevenue := bumpWith (· + rev) 0 group st.perGroupRevenue
    perShiftRevenue := bumpWith (· + rev) 0 shift st.perShiftRevenue
    perPersonCounts := bumpWith (· + 1) 0 person st.perPersonCounts
    perGroupCounts := bumpWith (· + 1) 0 group st.perGroupCounts
    perShiftCounts := bumpWith (· + 1) 0 shift st.perShiftCounts
    dailyActivity := bumpDaily r.impounded dayKey st.dailyActivity
    truckIds := addTruck r.truckId st.truckIds
    totalImpounded := if r.impounded then st.totalImpounded + 1 else st.totalImpounded
    perPersonImpounded :=
      if r.impounded then bumpWith (· + 1) 0 person st.perPersonImpounded
      else st.perPersonImpounded
    impoundedByShift :=
      if r.impounded then bumpWith (· + 1) 0 shift st.impoundedByShift
      else st.impoundedByShift
    impoundedByGroup :=
      if r.impounded then bumpWith (· + 1) 0 group st.impoundedByGroup
      else st.impoundedByGroup }

/-- The full aggregation pass over the record list. -/
def runAgg (rows : List TransactionRecord) (g s : List (String × String)) : AggState :=
  rows.foldl (stepRecord g s) initState

/-! ### Derived report -/

/-- Lexicographic comparison of character lists by code point. -/
def charListLe : List Char → List Char → Bool
  | [], _ => true
  | _ :: _, [] => false
  | x :: xs, y :: ys =>
      if x.toNat < y.toNat then true
      else if y.toNat < x.toNat then false
      else charListLe xs ys

/-- The default JS string comparison (lexicographic by code unit; code-point
order coincides for the keys at hand). -/
def strLe (a b : String) : Bool := charListLe a.data b.data

/-- Generic insertion by a boolean comparison. -/
def insertLe {α : Type} (le : α → α → Bool) (x : α) : List α → List α
  | [] => [x]
  | y :: ys => if le x y then x :: y :: ys else y :: insertLe le x ys

/-- Insertion sort by a boolean comparison. -/
def sortLe {α : Type} (le : α → α → Bool) (l : List α) : List α :=
  l.foldr (insertLe le) []

/-- JS `Array.prototype.sort()` on string keys. -/
def sortStrings (l : List String) : List String :=
  sortLe strLe l

/-- One row of the per-person aggregate table. -/
structure PersonRow where
  person : String
  group : String
  shift : String
  trucks : Nat
  impounded : Nat
  revenue : ℚ
deriving Repr, DecidableEq

/-- `peopleRows`: sorted person keys with their aggregates. -/
def peopleRowsOf (g s : List (String × String)) (st : AggState) : List PersonRow :=
  (sortStrings (st.perPersonCounts.map Prod.fst)).map fun p =>
    { person := p
      group := lookupAssign g p
      shift := lookupAssign s p
      trucks := (st.perPersonCounts.lookup p).getD 0
      impounded := (st.perPersonImpounded.lookup p).getD 0
      revenue := (st.perPersonRevenue.lookup p).getD 0 }

/-- The eligibility filter shared by `uniquePeople`, `topPerformer` and
`topRevenuePerformer`: truthy, not a placeholder, not `"Unknown"`. -/
def eligiblePerson (p : String) : Bool :=
  p != "" && !isPlaceholderName (.str p) && p != "Unknown"

/-- `max.trucks || 0` of the `topPerformer` reduce accumulator (the initial
accumulator is the empty object `{}`, modelled as `none`). -/
def curTrucks : Option PersonRow → Nat
  | none => 0
  | some q => q.trucks

/-- One step of the `topPerformer` reduce. -/
def tpStep (m : Option PersonRow) (p : PersonRow) : Option PersonRow :=
  if p.trucks > curTrucks m then some p else m

/-- `topPerformer`: reduce over the eligible rows of the (sorted)
`peopleRows`, keeping the first row that strictly exceeds the running
maximum count. -/
def topPerformerOf (rowsR : List PersonRow) : Option PersonRow :=
  (rowsR.filter (fun p => eligiblePerson p.person)).foldl tpStep none

/-- JS array-index property key: canonical decimal, below `2^32 - 1`. -/
def isArrayIndexStr (k : String) : Bool :=
  k != "" && k.data.all Char.isDigit && (k == "0" || k.data.head? != some '0') &&
  digitsVal k.data < 4294967295

/-- JS own-property key order: array-index keys first in ascending numeric
order, then the remaining keys in insertion order. -/
def jsOwnKeys (ks : List String) : List String :=
  sortLe (fun a b => digitsVal a.data ≤ digitsVal b.data) (ks.filter isArrayIndexStr) ++
  ks.filter (fun k => !isArrayIndexStr k)

/-- `Object.entries` of a numeric-valued dictionary. -/
def jsEntriesN (m : List (String × Nat)) : List (String × Nat) :=
  (jsOwnKeys (m.map Prod.fst)).map fun k => (k, (m.lookup k).getD 0)

/-- `Object.entries` of a rational-valued dictionary. -/
def jsEntriesQ (m : List (String × ℚ)) : List (String × ℚ) :=
  (jsOwnKeys (m.map Prod.fst)).map fun k => (k, (m.lookup k).getD 0)

/-- One step of the `[name, value]` reduces (`topGroupEntry`,
`topRevenuePerformerEntry`): `value > (max[1] || 0)` — for finite numbers
`max[1] || 0` equals `max[1]`, since the falsy finite number is `0`. -/
def entStepN (m e : String × Nat) : String × Nat := if e.2 > m.2 then e else m

/-- `entStepN` for rational values. -/
def entStepQ (m e : String × ℚ) : String × ℚ := if e.2 > m.2 then e else m

/-- `topGroupEntry`: reduce over the group-count entries from `['', 0]`. -/
def topGroupEntryOf (st : AggState) : String × Nat :=
  (jsEntriesN st.perGroupCounts).foldl entStepN ("", 0)

/-- `topRevenuePerformerEntry`: eligible person-revenue entries reduced from
`['', 0]`. -/
def topRevenueEntryOf (st : AggState) : String × ℚ :=
  ((jsEntriesQ st.perPersonRevenue).filter (fun e => eligiblePerson e.1)).foldl
    entStepQ ("", 0)

/-- `uniquePeople`: person keys that are neither placeholders nor
`"Unknown"`. -/
def uniquePeopleOf (st : AggState) : Nat :=
  ((st.perPersonCounts.map Prod.fst).filter
    (fun p => !isPlaceholderName (.str p) && p != "Unknown")).length

/-- An alert, identified by its severity `type` and `title` (the `message`
is presentation text, see the header comment). -/
structure AlertMsg where
  type : String
  title : String
deriving Repr, DecidableEq

/-- `toLocaleDateString` of a `YYYY-MM-DD` day key, modelled for a UTC
host in the en-US locale (`M/D/YYYY` without leading zeros); any other
string is returned unchanged (only reachable keys are `isoDateString`
outputs and `"Unknown Date"`, which is filtered before this call). -/
def localeDateString (s : String) : String :=
  match s.data with
  | [y1, y2, y3, y4, '-', m1, m2, '-', d1, d2] =>
      match num4 y1 y2 y3 y4, num2 m1 m2, num2 d1 d2 with
      | some y, some m, some d => natToStr m ++ "/" ++ natToStr d ++ "/" ++ natToStr y
      | _, _, _ => s
  | _ => s

/-- The display mapping of trend dates: `"Unknown Date"` passes through,
valid day keys are locale-formatted. -/
def displayDate (d : String) : String :=
  if d = "Unknown Date" then d else localeDateString d

/-- The trend series. -/
structure Trends where
  dates : List String
  dailyCounts : List Nat
  dailyImpounded : List Nat
deriving Repr, DecidableEq

/-- `trends`: present only when there are at least two day buckets. -/
def trendsOf (st : AggState) : Option Trends :=
  let sortedDates := sortStrings (st.dailyActivity.map Prod.fst)
  if sortedDates.length > 1 then
    some
      { dates := sortedDates.map displayDate
        dailyCounts := sortedDates.map fun d => ((st.dailyActivity.lookup d).getD (0, 0)).1
        dailyImpounded := sortedDates.map fun d => ((st.dailyActivity.lookup d).getD (0, 0)).2 }
  else none

/-- `topGroup` summary. -/
structure TopGroup where
  name : String
  trucks : Nat
  percentage : ℚ
deriving Repr, DecidableEq

/-- `topRevenuePerformer` summary. -/
structure TopRevenue where
  name : String
  revenue : ℚ
deriving Repr, DecidableEq

/-- The `basic` section of the report. -/
structure BasicReport where
  totalTrucks : Nat
  totalImpounded : Nat
  totalRevenue : ℚ
  perPerson : List (String × Nat)
  perGroup : List (String × Nat)
  perShift : List (String × Nat)
  peopleRows : List PersonRow
  perPersonRevenue : List (String × ℚ)
  perGroupRevenue : List (String × ℚ)
  perShiftRevenue : List (String × ℚ)
deriving Repr, DecidableEq

/-- The `stats` section of the report. -/
structure StatsReport where
  uniquePeople : Nat
  avgTrucksPerPerson : ℚ
  impoundedRate : ℚ
  topPerformer : Option PersonRow
  topGroup : TopGroup
  uniqueTrucks : Nat
  topRevenuePerformer : TopRevenue
deriving Repr, DecidableEq

/-- The full analytics report. -/
structure AnalyticsReport where
  basic : BasicReport
  stats : StatsReport
  impoundedByShift : List (String × Nat)
  impoundedByGroup : List (String × Nat)
  alerts : List AlertMsg
  trends : Option Trends
  dailyActivity : List (String × Nat × Nat)
deriving Repr, DecidableEq

/-- `avgTrucksPerPerson = uniquePeople > 0 ? total / uniquePeople : 0`. -/
def avgTrucksOf (st : AggState) : ℚ :=
  if uniquePeopleOf st > 0 then (st.total : ℚ) / (uniquePeopleOf st : ℚ) else 0

/-- `impoundedRate = total > 0 ? (totalImpounded / total) * 100 : 0`. -/
def impoundedRateOf (st : AggState) : ℚ :=
  if st.total > 0 then ((st.totalImpounded : ℚ) / (st.total : ℚ)) * 100 else 0

/-- The alert list: the impound-rate tier (at most one of "danger" /
"warning"), the under-performer check, and the unassigned-personnel check. -/
def alertsOf (g s : List (String × String)) (st : AggState) : List AlertMsg :=
  let peopleRows := peopleRowsOf g s st
  (if impoundedRateOf st > 15 then [⟨"danger", "High Impound Rate Alert"⟩]
   else if impoundedRateOf st > 10 then [⟨"warning", "Elevated Impound Rate"⟩]
   else []) ++
  (if (peopleRows.filter fun p =>
        (p.trucks : ℚ) < avgTrucksOf st * (1 / 2 : ℚ)).length > 0 then
    [⟨"warning", "Performance Gap Identified"⟩]
   else []) ++
  (if (peopleRows.filter fun p =>
        p.group = "Unassigned" || p.shift = "Unassigned").length > 0 then
    [⟨"info", "Assignment Needed"⟩]
   else [])

/-- `computeAdvancedAnalytics(rows, peopleToGroup, peopleToShift)`. -/
def computeAdvancedAnalytics (rows : List TransactionRecord)
    (peopleToGroup peopleToShift : List (String × String)) : AnalyticsReport :=
  let st := runAgg rows peopleToGroup peopleToShift
  let peopleRows := peopleRowsOf peopleToGroup peopleToShift st
  let uniquePeople := uniquePeopleOf st
  let avgTrucksPerPerson := avgTrucksOf st
  let impoundedRate := impoundedRateOf st
  let topPerformer := topPerformerOf peopleRows
  let topGroupEntry := topGroupEntryOf st
  let topGroup : TopGroup :=
    { name := topGroupEntry.1
      trucks := topGroupEntry.2
      percentage :=
        if st.total > 0 then ((topGroupEntry.2 : ℚ) / (st.total : ℚ)) * 100 else 0 }
  let tre := topRevenueEntryOf st
  -- `entry[0] || 'Unknown'` and `entry[1] || 0` (identity on finite numbers)
  let topRevenuePerformer : TopRevenue :=
    { name := if tre.1 = "" then "Unknown" else tre.1, revenue := tre.2 }
  let alerts := alertsOf peopleToGroup peopleToShift st
  { basic :=
      { totalTrucks := st.total
        totalImpounded := st.totalImpounded
        totalRevenue := st.totalRevenue
        perPerson := st.perPersonCounts
        perGroup := st.perGroupCounts
        perShift := st.perShiftCounts
        peopleRows := peopleRows
        perPersonRevenue := st.perPersonRevenue
        perGroupRevenue := st.perGroupRevenue
        perShiftRevenue := st.perShiftRevenue }
    stats :=
      { uniquePeople := uniquePeople
        avgTrucksPerPerson := avgTrucksPerPerson
        impoundedRate := impoundedRate
        topPerformer := topPerformer
        topGroup := topGroup
        uniqueTrucks := st.truckIds.length
        topRevenuePerformer := topRevenuePerformer }
    impoundedByShift := st.impoundedByShift
    impoundedByGroup := st.impoundedByGroup
    alerts := alerts
    trends := trendsOf st
    dailyActivity := st.dailyActivity }

/-! ## Lemmas about the dictionary operations -/

theorem sumSnd_bumpAdd (k : String) (v : Nat) (m : List (String × Nat)) :
    ((bumpWith (· + v) 0 k m).map Prod.snd).sum = (m.map Prod.snd).sum + v := by
  induction m with
  | nil => simp [bumpWith]
  | cons hd tl ih =>
    obtain ⟨a, b⟩ := hd
    by_cases h : a = k
    · simp [bumpWith, h]
      omega
    · simp [bumpWith, h, ih]
      omega

theorem keys_bumpWith {β : Type} (u : β → β) (d : β) (k : String)
    (m : List (String × β)) :
    (bumpWith u d k m).map Prod.fst = seenInsert k (m.map Prod.fst) := by
  induction m with
  | nil => simp [bumpWith, seenInsert]
  | cons hd tl ih =>
    obtain ⟨a, b⟩ := hd
    by_cases h : a = k
    · subst h
      simp [bumpWith, seenInsert]
    · have hne : ¬k = a := fun hh => h hh.symm
      by_cases hmem : k ∈ tl.map Prod.fst
      · simp [bumpWith, h, ih, seenInsert, hmem, hne]
      · simp [bumpWith, h, ih, seenInsert, hmem, hne]

theorem mem_seenInsert (a k : String) (l : List String) :
    a ∈ seenInsert k l ↔ a = k ∨ a ∈ l := by
  unfold seenInsert
  split_ifs with h
  · constructor
    · exact fun hm => Or.inr hm
    · rintro (rfl | hm)
      · exact h
      · exact hm
  · simp [List.mem_append]
    tauto

theorem nodup_seenInsert (k : String) (l : List String) (h : l.Nodup) :
    (seenInsert k l).Nodup := by
  unfold seenInsert
  split_ifs with hm
  · exact h
  · simp [List.nodup_append, h, hm]

theorem mem_foldl_seenInsert {α : Type} (f : α → String) (rows : List α)
    (acc : List String) (a : String) (h : a ∈ acc) :
    a ∈ rows.foldl (fun ac r => seenInsert (f r) ac) acc := by
  induction rows generalizing acc with
  | nil => exact h
  | cons x xs ih =>
    exact ih _ ((mem_seenInsert a (f x) acc).mpr (Or.inr h))

theorem self_mem_foldl_seenInsert {α : Type} (f : α → String) (rows : List α)
    (acc : List String) (r : α) (hr : r ∈ rows) :
    f r ∈ rows.foldl (fun ac rr => seenInsert (f rr) ac) acc := by
  induction rows generalizing acc with
  | nil => cases hr
  | cons x xs ih =>
    rcases List.mem_cons.mp hr with rfl | hr2
    · exact mem_foldl_seenInsert f xs _ _ ((mem_seenInsert _ _ _).mpr (Or.inl rfl))
    · exact ih _ hr2

theorem nodup_foldl_seenInsert {α : Type} (f : α → String) (rows : List α)
    (acc : List String) (h : acc.Nodup) :
    (rows.foldl (fun ac r => seenInsert (f r) ac) acc).Nodup := by
  induction rows generalizing acc with
  | nil => exact h
  | cons x xs ih => exact ih _ (nodup_seenInsert _ _ h)

theorem mem_foldl_seenInsert_src {α : Type} (f : α → String) (rows : List α)
    (acc : List String) (a : String)
    (h : a ∈ rows.foldl (fun ac r => seenInsert (f r) ac) acc) :
    a ∈ acc ∨ ∃ r ∈ rows, a = f r := by
  induction rows generalizing acc with
  | nil => exact Or.inl h
  | cons x xs ih =>
    rcases ih _ h with hacc | ⟨r, hr, rfl⟩
    · rcases (mem_seenInsert a (f x) acc).mp hacc with rfl | h2
      · exact Or.inr ⟨x, List.mem_cons_self x xs, rfl⟩
      · exact Or.inl h2
    · exact Or.inr ⟨r, List.mem_cons_of_mem x hr, rfl⟩

theorem foldl_seenInsert_const {α : Type} (f : α → String) (k : String)
    (rows : List α) (acc : List String) (hall : ∀ r ∈ rows, f r = k)
    (hacc : acc = [] ∨ acc = [k]) :
    rows.foldl (fun ac r => seenInsert (f r) ac) acc = [] ∨
      rows.foldl (fun ac r => seenInsert (f r) ac) acc = [k] := by
  induction rows generalizing acc with
  | nil => exact hacc
  | cons x xs ih =>
    have hx : f x = k := hall x (List.mem_cons_self x xs)
    refine ih _ (fun r hr => hall r (List.mem_cons_of_mem x hr)) ?_
    rcases hacc with rfl | rfl
    · right; simp [seenInsert, hx]
    · right; simp [seenInsert, hx]

/-! ## Lemmas about the sorting helpers -/

theorem perm_insertLe {α : Type} (le : α → α → Bool) (x : α) (l : List α) :
    (insertLe le x l).Perm (x :: l) := by
  induction l with
  | nil => exact List.Perm.refl _
  | cons y ys ih =>
    unfold insertLe
    split_ifs
    · exact List.Perm.refl _
    · exact (ih.cons y).trans (List.Perm.swap x y ys)

theorem perm_sortLe {α : Type} (le : α → α → Bool) (l : List α) :
    (sortLe le l).Perm l := by
  induction l with
  | nil => exact List.Perm.refl _
  | cons x xs ih =>
    have : sortLe le (x :: xs) = insertLe le x (sortLe le xs) := rfl
    rw [this]
    exact (perm_insertLe le x (sortLe le xs)).trans (ih.cons x)

theorem mem_sortLe {α : Type} (le : α → α → Bool) (l : List α) (a : α) :
    a ∈ sortLe le l ↔ a ∈ l :=
  (perm_sortLe le l).mem_iff

theorem length_sortLe {α : Type} (le : α → α → Bool) (l : List α) :
    (sortLe le l).length = l.length :=
  (perm_sortLe le l).length_eq

theorem mem_insertLe {α : Type} (le : α → α → Bool) (x a : α) (l : List α) :
    a ∈ insertLe le x l ↔ a = x ∨ a ∈ l := by
  rw [(perm_insertLe le x l).mem_iff]
  simp

theorem pairwise_insertLe {α : Type} (le : α → α → Bool)
    (htot : ∀ a b, le a b = true ∨ le b a = true)
    (htr : ∀ a b c, le a b = true → le b c = true → le a c = true)
    (x : α) (l : List α) (hl : l.Pairwise (fun a b => le a b = true)) :
    (insertLe le x l).Pairwise (fun a b => le a b = true) := by
  induction l with
  | nil => simp [insertLe]
  | cons y ys ih =>
    rcases List.pairwise_cons.mp hl with ⟨hy, hys⟩
    unfold insertLe
    split_ifs with hxy
    · refine List.pairwise_cons.mpr ⟨?_, hl⟩
      intro z hz
      rcases List.mem_cons.mp hz with rfl | hz2
      · exact hxy
      · exact htr x y z hxy (hy z hz2)
    · refine List.pairwise_cons.mpr ⟨?_, ih hys⟩
      intro z hz
      rcases (mem_insertLe le x z ys).mp hz with rfl | hz2
      · rcases htot z y with h | h
        · exact absurd h hxy
        · exact h
      · exact hy z hz2

theorem pairwise_sortLe {α : Type} (le : α → α → Bool)
    (htot : ∀ a b, le a b = true ∨ le b a = true)
    (htr : ∀ a b c, le a b = true → le b c = true → le a c = true)
    (l : List α) : (sortLe le l).Pairwise (fun a b => le a b = true) := by
  induction l with
  | nil => simp [sortLe]
  | cons x xs ih =>
    have : sortLe le (x :: xs) = insertLe le x (sortLe le xs) := rfl
    rw [this]
    exact pairwise_insertLe le htot htr x _ ih

theorem charListLe_refl (l : List Char) : charListLe l l = true := by
  induction l with
  | nil => rfl
  | cons x xs ih => simp [charListLe, ih]

theorem charListLe_total (a : List Char) :
    ∀ b, charListLe a b = true ∨ charListLe b a = true := by
  induction a with
  | nil => intro b; left; rfl
  | cons x xs ih =>
    intro b
    cases b with
    | nil => right; rfl
    | cons y ys =>
      by_cases h1 : x.toNat < y.toNat
      · left; simp [charListLe, h1]
      · by_cases h2 : y.toNat < x.toNat
        · right; simp [charListLe, h2]
        · rcases ih ys with h | h
          · left; simp [charListLe, h1, h2, h]
          · right; simp [charListLe, h1, h2, h]

theorem charListLe_trans (a : List Char) :
    ∀ b c, charListLe a b = true → charListLe b c = true →
      charListLe a c = true := by
  induction a with
  | nil => intro b c _ _; rfl
  | cons x xs ih =>
    intro b c hab hbc
    cases b with
    | nil => simp [charListLe] at hab
    | cons y ys =>
      cases c with
      | nil => simp [charListLe] at hbc
      | cons z zs =>
        simp only [charListLe] at hab hbc ⊢
        by_cases hxy : x.toNat < y.toNat
        · -- x < y, so from hbc either y < z or y = z; either way x < z
          by_cases hyz : y.toNat < z.toNat
          · simp [show x.toNat < z.toNat by omega]
          · by_cases hzy : z.toNat < y.toNat
            · simp [hyz, hzy] at hbc
            · simp [show x.toNat < z.toNat by omega]
        · by_cases hyx : y.toNat < x.toNat
          · simp [hxy, hyx] at hab
          · -- x = y (as code points)
            by_cases hyz : y.toNat < z.toNat
            · simp [show x.toNat < z.toNat by omega]
            · by_cases hzy : z.toNat < y.toNat
              · simp [hyz, hzy] at hbc
              · have hxz : ¬x.toNat < z.toNat := by omega
                have hzx : ¬z.toNat < x.toNat := by omega
                simp [hxy, hyx] at hab
                simp [hyz, hzy] at hbc
                simp [hxz, hzx]
                exact ih ys zs hab hbc

theorem strLe_refl (a : String) : strLe a a = true := charListLe_refl a.data

theorem strLe_total (a b : String) : strLe a b = true ∨ strLe b a = true :=
  charListLe_total a.data b.data

theorem strLe_trans (a b c : String) (h1 : strLe a b = true)
    (h2 : strLe b c = true) : strLe a c = true :=
  charListLe_trans a.data b.data c.data h1 h2

/-! ## Invariants of the aggregation pass -/

theorem stepRecord_total (g s : List (String × String)) (st : AggState)
    (r : TransactionRecord) : (stepRecord g s st r).total = st.total + 1 := rfl

theorem stepRecord_perPersonCounts (g s : List (String × String)) (st : AggState)
    (r : TransactionRecord) :
    (stepRecord g s st r).perPersonCounts =
      bumpWith (· + 1) 0 (resolvePersonName r) st.perPersonCounts := rfl

theorem stepRecord_perGroupCounts (g s : List (String × String)) (st : AggState)
    (r : TransactionRecord) :
    (stepRecord g s st r).perGroupCounts =
      bumpWith (· + 1) 0 (lookupAssign g (resolvePersonName r)) st.perGroupCounts := rfl

theorem stepRecord_perShiftCounts (g s : List (String × String)) (st : AggState)
    (r : TransactionRecord) :
    (stepRecord g s st r).perShiftCounts =
      bumpWith (· + 1) 0 (lookupAssign s (resolvePersonName r)) st.perShiftCounts := rfl

theorem stepRecord_perPersonRevenue (g s : List (String × String)) (st : AggState)
    (r : TransactionRecord) :
    (stepRecord g s st r).perPersonRevenue =
      bumpWith (· + rowRevenue r) 0 (resolvePersonName r) st.perPersonRevenue := rfl

theorem stepRecord_dailyActivity (g s : List (String × String)) (st : AggState)
    (r : TransactionRecord) :
    (stepRecord g s st r).dailyActivity =
      bumpDaily r.impounded (dayKeyOf r) st.dailyActivity := rfl

theorem stepRecord_totalImpounded (g s : List (String × String)) (st : AggState)
    (r : TransactionRecord) :
    (stepRecord g s st r).totalImpounded =
      if r.impounded then st.totalImpounded + 1 else st.totalImpounded := rfl

theorem foldl_step_total (g s : List (String × String))
    (rows : List TransactionRecord) :
    ∀ st : AggState, (rows.foldl (stepRecord g s) st).total = st.total + rows.length := by
  induction rows with
  | nil => intro st; simp
  | cons r rs ih =>
    intro st
    rw [List.foldl_cons, ih, stepRecord_total]
    simp [Nat.add_assoc, Nat.add_comm 1 rs.length]

theorem foldl_step_sumPerson (g s : List (String × String))
    (rows : List TransactionRecord) :
    ∀ st : AggState,
      (((rows.foldl (stepRecord g s) st).perPersonCounts.map Prod.snd).sum : Nat) =
        (st.perPersonCounts.map Prod.snd).sum + rows.length := by
  induction rows with
  | nil => intro st; simp
  | cons r rs ih =>
    intro st
    rw [List.foldl_cons, ih, stepRecord_perPersonCounts, sumSnd_bumpAdd]
    simp [List.length_cons]
    omega

theorem foldl_step_sumGroup (g s : List (String × String))
    (rows : List TransactionRecord) :
    ∀ st : AggState,
      (((rows.foldl (stepRecord g s) st).perGroupCounts.map Prod.snd).sum : Nat) =
        (st.perGroupCounts.map Prod.snd).sum + rows.length := by
  induction rows with
  | nil => intro st; simp
  | cons r rs ih =>
    intro st
    rw [List.foldl_cons, ih, stepRecord_perGroupCounts, sumSnd_bumpAdd]
    simp [List.length_cons]
    omega

theorem foldl_step_sumShift (g s : List (String × String))
    (rows : List TransactionRecord) :
    ∀ st : AggState,
      (((rows.foldl (stepRecord g s) st).perShiftCounts.map Prod.snd).sum : Nat) =
        (st.perShiftCounts.map Prod.snd).sum + rows.length := by
  induction rows with
  | nil => intro st; simp
  | cons r rs ih =>
    intro st
    rw [List.foldl_cons, ih, stepRecord_perShiftCounts, sumSnd_bumpAdd]
    simp [List.length_cons]
    omega

theorem foldl_step_impounded (g s : List (String × String))
    (rows : List TransactionRecord) :
    ∀ st : AggState,
      (rows.foldl (stepRecord g s) st).totalImpounded =
        st.totalImpounded + rows.countP (fun r => r.impounded) := by
  induction rows with
  | nil => intro st; simp
  | cons r rs ih =>
    intro st
    rw [List.foldl_cons, ih, stepRecord_totalImpounded, List.countP_cons]
    by_cases h : r.impounded
    · simp [h]; omega
    · simp [h]

theorem foldl_step_personKeys (g s : List (String × String))
    (rows : List TransactionRecord) :
    ∀ st : AggState,
      (rows.foldl (stepRecord g s) st).perPersonCounts.map Prod.fst =
        rows.foldl (fun ac r => seenInsert (resolvePersonName r) ac)
          (st.perPersonCounts.map Prod.fst) := by
  induction rows with
  | nil => intro st; rfl
  | cons r rs ih =>
    intro st
    rw [List.foldl_cons, List.foldl_cons, ih, stepRecord_perPersonCounts, keys_bumpWith]

theorem foldl_step_personRevKeys (g s : List (String × String))
    (rows : List TransactionRecord) :
    ∀ st : AggState,
      (rows.foldl (stepRecord g s) st).perPersonRevenue.map Prod.fst =
        rows.foldl (fun ac r => seenInsert (resolvePersonName r) ac)
          (st.perPersonRevenue.map Prod.fst) := by
  induction rows with
  | nil => intro st; rfl
  | cons r rs ih =>
    intro st
    rw [List.foldl_cons, List.foldl_cons, ih, stepRecord_perPersonRevenue, keys_bumpWith]

theorem foldl_step_dayKeys (g s : List (String × String))
    (rows : List TransactionRecord) :
    ∀ st : AggState,
      (rows.foldl (stepRecord g s) st).dailyActivity.map Prod.fst =
        rows.foldl (fun ac r => seenInsert (dayKeyOf r) ac)
          (st.dailyActivity.map Prod.fst) := by
  induction rows with
  | nil => intro st; rfl
  | cons r rs ih =>
    intro st
    rw [List.foldl_cons, List.foldl_cons, ih, stepRecord_dailyActivity]
    unfold bumpDaily
    rw [keys_bumpWith]

theorem runAgg_total (rows : List TransactionRecord) (g s : List (String × String)) :
    (runAgg rows g s).total = rows.length := by
  unfold runAgg
  rw [foldl_step_total]
  simp [initState]

theorem runAgg_impounded (rows : List TransactionRecord) (g s : List (String × String)) :
    (runAgg rows g s).totalImpounded = rows.countP (fun r => r.impounded) := by
  unfold runAgg
  rw [foldl_step_impounded]
  simp [initState]

theorem runAgg_impounded_le_total (rows : List TransactionRecord)
    (g s : List (String × String)) :
    (runAgg rows g s).totalImpounded ≤ (runAgg rows g s).total := by
  rw [runAgg_total, runAgg_impounded]
  exact List.countP_le_length _

theorem runAgg_personKeys (rows : List TransactionRecord) (g s : List (String × String)) :
    (runAgg rows g s).perPersonCounts.map Prod.fst =
      rows.foldl (fun ac r => seenInsert (resolvePersonName r) ac) [] := by
  unfold runAgg
  rw [foldl_step_personKeys]
  rfl

theorem runAgg_personRevKeys (rows : List TransactionRecord) (g s : List (String × String)) :
    (runAgg rows g s).perPersonRevenue.map Prod.fst =
      rows.foldl (fun ac r => seenInsert (resolvePersonName r) ac) [] := by
  unfold runAgg
  rw [foldl_step_personRevKeys]
  rfl

theorem runAgg_dayKeys (rows : List TransactionRecord) (g s : List (String × String)) :
    (runAgg rows g s).dailyActivity.map Prod.fst =
      rows.foldl (fun ac r => seenInsert (dayKeyOf r) ac) [] := by
  unfold runAgg
  rw [foldl_step_dayKeys]
  rfl

/-! ## The `reduce`-based maximum selections -/

theorem tpFold_spec (l : List PersonRow) :
    ∀ m0 : Option PersonRow,
      (l.foldl tpStep m0 = m0 ∧ ∀ p ∈ l, p.trucks ≤ curTrucks m0) ∨
      ∃ l1 p l2, l = l1 ++ p :: l2 ∧ l.foldl tpStep m0 = some p ∧
        curTrucks m0 < p.trucks ∧ (∀ q ∈ l1, q.trucks < p.trucks) ∧
        (∀ q ∈ l2, q.trucks ≤ p.trucks) := by
  induction l with
  | nil =>
    intro m0
    left
    exact ⟨rfl, by simp⟩
  | cons x xs ih =>
    intro m0
    by_cases hx : curTrucks m0 < x.trucks
    · have hstep : tpStep m0 x = some x := by simp [tpStep, hx]
      rcases ih (some x) with ⟨heq, hall⟩ | ⟨l1, p, l2, hsplit, hres, hgt, hl1, hl2⟩
      · right
        refine ⟨[], x, xs, by simp, ?_, hx, by simp, ?_⟩
        · rw [List.foldl_cons, hstep, heq]
        · intro q hq
          exact hall q hq
      · right
        refine ⟨x :: l1, p, l2, by rw [hsplit]; rfl, ?_, ?_, ?_, hl2⟩
        · rw [List.foldl_cons, hstep, hres]
        · exact Nat.lt_trans hx hgt
        · intro q hq
          rcases List.mem_cons.mp hq with rfl | hq2
          · exact hgt
          · exact hl1 q hq2
    · have hstep : tpStep m0 x = m0 := by simp [tpStep, hx]
      rcases ih m0 with ⟨heq, hall⟩ | ⟨l1, p, l2, hsplit, hres, hgt, hl1, hl2⟩
      · left
        refine ⟨by rw [List.foldl_cons, hstep, heq], ?_⟩
        intro q hq
        rcases List.mem_cons.mp hq with rfl | hq2
        · exact Nat.le_of_not_lt hx
        · exact hall q hq2
      · right
        refine ⟨x :: l1, p, l2, by rw [hsplit]; rfl, ?_, hgt, ?_, hl2⟩
        · rw [List.foldl_cons, hstep, hres]
        · intro q hq
          rcases List.mem_cons.mp hq with rfl | hq2
          · exact Nat.lt_of_le_of_lt (Nat.le_of_not_lt hx) hgt
          · exact hl1 q hq2

theorem entFold_spec (l : List (String × ℚ)) :
    ∀ m0 : String × ℚ,
      (l.foldl entStepQ m0 = m0 ∧ ∀ e ∈ l, e.2 ≤ m0.2) ∨
      ∃ l1 e l2, l = l1 ++ e :: l2 ∧ l.foldl entStepQ m0 = e ∧
        m0.2 < e.2 ∧ (∀ y ∈ l1, y.2 < e.2) ∧ (∀ y ∈ l2, y.2 ≤ e.2) := by
  induction l with
  | nil =>
    intro m0
    left
    exact ⟨rfl, by simp⟩
  | cons x xs ih =>
    intro m0
    by_cases hx : m0.2 < x.2
    · have hstep : entStepQ m0 x = x := by simp [entStepQ, hx]
      rcases ih x with ⟨heq, hall⟩ | ⟨l1, e, l2, hsplit, hres, hgt, hl1, hl2⟩
      · right
        refine ⟨[], x, xs, by simp, ?_, hx, by simp, ?_⟩
        · rw [List.foldl_cons, hstep, heq]
        · intro y hy
          exact hall y hy
      · right
        refine ⟨x :: l1, e, l2, by rw [hsplit]; rfl, ?_, ?_, ?_, hl2⟩
        · rw [List.foldl_cons, hstep, hres]
        · exact lt_trans hx hgt
        · intro y hy
          rcases List.mem_cons.mp hy with rfl | hy2
          · exact hgt
          · exact hl1 y hy2
    · have hstep : entStepQ m0 x = m0 := by simp [entStepQ, hx]
      rcases ih m0 with ⟨heq, hall⟩ | ⟨l1, e, l2, hsplit, hres, hgt, hl1, hl2⟩
      · left
        refine ⟨by rw [List.foldl_cons, hstep, heq], ?_⟩
        intro y hy
        rcases List.mem_cons.mp hy with rfl | hy2
        · exact le_of_not_lt hx
        · exact hall y hy2
      · right
        refine ⟨x :: l1, e, l2, by rw [hsplit]; rfl, ?_, hgt, ?_, hl2⟩
        · rw [List.foldl_cons, hstep, hres]
        · intro y hy
          rcases List.mem_cons.mp hy with rfl | hy2
          · exact lt_of_le_of_lt (le_of_not_lt hx) hgt
          · exact hl1 y hy2

/-! ## `Object.entries` on the accumulated dictionaries -/

theorem map_lookup_self {β : Type} (m : List (String × β)) (d : β)
    (h : (m.map Prod.fst).Nodup) :
    (m.map Prod.fst).map (fun k => (k, (m.lookup k).getD d)) = m := by
  induction m with
  | nil => rfl
  | cons hd tl ih =>
    obtain ⟨a, b⟩ := hd
    rcases List.nodup_cons.mp h with ⟨ha, htl⟩
    simp only [List.map_cons]
    have hcong : ∀ k ∈ tl.map Prod.fst,
        (k, ((((a, b) :: tl).lookup k).getD d)) = (k, ((tl.lookup k).getD d)) := by
      intro k hk
      have hka : (k == a) = false := by
        rw [beq_eq_false_iff_ne]
        intro hkk
        exact ha (hkk ▸ hk)
      simp [List.lookup, hka]
    have hhead : (((a, b) :: tl).lookup a).getD d = b := by
      simp [List.lookup]
    rw [hhead, List.map_congr_left hcong, ih htl]

/-! ## Placeholder names survive trimming -/

theorem dropWhile_head_false {p : Char → Bool} :
    ∀ (l : List Char) (x : Char), (l.dropWhile p).head? = some x → p x = false := by
  intro l
  induction l with
  | nil => intro x h; cases h
  | cons a as ih =>
    intro x h
    by_cases hpa : p a
    · rw [List.dropWhile_cons, if_pos hpa] at h
      exact ih x h
    · rw [List.dropWhile_cons, if_neg hpa] at h
      have : a = x := by
        simpa using h
      subst this
      exact Bool.eq_false_iff.mpr hpa

theorem dropWhile_dropWhile {p : Char → Bool} (l : List Char) :
    (l.dropWhile p).dropWhile p = l.dropWhile p := by
  cases hd : l.dropWhile p with
  | nil => rfl
  | cons x xs =>
    have hx : p x = false := by
      apply dropWhile_head_false l
      rw [hd]
      rfl
    rw [List.dropWhile_cons, if_neg (by simp [hx])]

theorem head_of_prefix_left_trimmed {p : Char → Bool} {t A : List Char}
    (hpre : t <+: A) (hA : A.dropWhile p = A) (x : Char) (hx : t.head? = some x) :
    p x = false := by
  obtain ⟨rest, rfl⟩ := hpre
  apply dropWhile_head_false (t ++ rest)
  rw [hA]
  cases t with
  | nil => cases hx
  | cons a as => simpa using hx

theorem jsTrim_idem (s : String) : jsTrim (jsTrim s) = jsTrim s := by
  unfold jsTrim
  simp only []
  -- notation: `A` is the left-trimmed data, `B` its reversed right-trim
  set p := jsWhitespace
  set A := s.data.dropWhile p with hA
  set B := A.reverse.dropWhile p with hB
  have hAdrop : A.dropWhile p = A := dropWhile_dropWhile s.data
  have hpre : B.reverse <+: A := by
    rw [show A = A.reverse.reverse by simp]
    exact List.reverse_prefix.mpr (List.dropWhile_suffix p)
  have h1 : B.reverse.dropWhile p = B.reverse := by
    cases hd : B.reverse with
    | nil => rfl
    | cons x xs =>
      have hx : p x = false := by
        apply head_of_prefix_left_trimmed hpre hAdrop
        rw [hd]; rfl
      rw [List.dropWhile_cons, if_neg (by simp [hx])]
  have h2 : B.reverse.reverse.dropWhile p = B := by
    simp only [List.reverse_reverse]
    rw [hB]
    exact dropWhile_dropWhile A.reverse
  show String.mk (((B.reverse.dropWhile p).reverse.dropWhile p).reverse) =
    String.mk B.reverse
  rw [h1, h2]

theorem isPlaceholder_str_trim (x : String) :
    isPlaceholderName (.str (jsTrim x)) = isPlaceholderName (.str x) := by
  simp only [isPlaceholderName, jsToString, jsTrim_idem]

theorem isPlaceholder_str_toString (v : JSVal) (hv : v ≠ .undefined) (hn : v ≠ .null) :
    isPlaceholderName (.str (jsToString v)) = isPlaceholderName v := by
  cases v with
  | undefined => exact absurd rfl hv
  | null => exact absurd rfl hn
  | num q => rfl
  | str t => rfl

theorem resolve_placeholderFree (r : TransactionRecord) :
    resolvePersonName r = "Unknown" ∨
      isPlaceholderName (.str (resolvePersonName r)) = false := by
  cases hfind : List.find? (fun c => truthy c && !isPlaceholderName c)
      [r.person, rawGet r "User Full Name", rawGet r "Driver Name",
        rawGet r "Name", rawGet r "Driver", rawGet r "Owner Name"] with
  | none =>
    left
    unfold resolvePersonName
    simp [hfind]
  | some c =>
    right
    have hres : resolvePersonName r = jsTrim (jsToString c) := by
      unfold resolvePersonName
      simp [hfind]
    have hc := List.find?_some hfind
    rcases Bool.and_eq_true_iff.mp hc with ⟨_, hnp⟩
    have hnp2 : isPlaceholderName c = false := by
      cases h : isPlaceholderName c
      · rfl
      · rw [h] at hnp; cases hnp
    have hcu : c ≠ .undefined := by
      intro hh; rw [hh] at hnp2; cases hnp2
    have hcn : c ≠ .null := by
      intro hh; rw [hh] at hnp2; cases hnp2
    rw [hres, isPlaceholder_str_trim, isPlaceholder_str_toString c hcu hcn]
    exact hnp2

theorem resolve_eq_unknown_of_placeholder (r : TransactionRecord)
    (h : isPlaceholderName (.str (resolvePersonName r)) = true) :
    resolvePersonName r = "Unknown" := by
  rcases resolve_placeholderFree r with h1 | h1
  · exact h1
  · rw [h1] at h; cases h

theorem jsOwnKeys_id (ks : List String)
    (h : ∀ k ∈ ks, isArrayIndexStr k = false) : jsOwnKeys ks = ks := by
  unfold jsOwnKeys
  have h1 : ks.filter isArrayIndexStr = [] := by
    rw [List.filter_eq_nil_iff]
    intro k hk
    simp [h k hk]
  have h2 : ks.filter (fun k => !isArrayIndexStr k) = ks := by
    rw [List.filter_eq_self]
    intro k hk
    simp [h k hk]
  rw [h1, h2]
  rfl

theorem jsEntriesQ_id (m : List (String × ℚ))
    (hnd : (m.map Prod.fst).Nodup)
    (hidx : ∀ k ∈ m.map Prod.fst, isArrayIndexStr k = false) :
    jsEntriesQ m = m := by
  unfold jsEntriesQ
  rw [jsOwnKeys_id _ hidx]
  exact map_lookup_self m 0 hnd

theorem length_sortStrings (l : List String) : (sortStrings l).length = l.length :=
  length_sortLe strLe l

theorem mem_sortStrings (l : List String) (a : String) :
    a ∈ sortStrings l ↔ a ∈ l :=
  mem_sortLe strLe l a

/-! ## The trends gate -/

theorem trends_none_iff (st : AggState) :
    trendsOf st = none ↔ (st.dailyActivity.map Prod.fst).length ≤ 1 := by
  simp only [trendsOf]
  split_ifs with h
  · rw [length_sortStrings] at h
    constructor
    · intro hh; cases hh
    · intro hh; omega
  · rw [length_sortStrings] at h
    constructor
    · intro _; omega
    · intro _; rfl

theorem trends_dates_of_some (st : AggState) (t : Trends)
    (h : trendsOf st = some t) :
    t.dates = (sortStrings (st.dailyActivity.map Prod.fst)).map displayDate := by
  simp only [trendsOf] at h
  split_ifs at h with hlen
  · cases h
    rfl

/-! ## Example inputs for the claims -/

/-- The distinct day-bucket keys of a record list, in first-seen order. -/
def distinctDayKeys (rows : List TransactionRecord) : List String :=
  rows.foldl (fun ac r => seenInsert (dayKeyOf r) ac) []

/-! ## Claim C1 -/

/-- **C1.** For every record list and assignment mappings, the sum of the
per-person counts over all person keys in the report equals the total record
count, and the same holds for the per-group and the per-shift counts: every
record contributes to exactly one person, group and shift bucket. -/
theorem claim_C1_bucket_sums (rows : List TransactionRecord)
    (g s : List (String × String)) :
    (((computeAdvancedAnalytics rows g s).basic.perPerson.map Prod.snd).sum =
      (computeAdvancedAnalytics rows g s).basic.totalTrucks) ∧
    (((computeAdvancedAnalytics rows g s).basic.perGroup.map Prod.snd).sum =
      (computeAdvancedAnalytics rows g s).basic.totalTrucks) ∧
    (((computeAdvancedAnalytics rows g s).basic.perShift.map Prod.snd).sum =
      (computeAdvancedAnalytics rows g s).basic.totalTrucks) := by
  refine ⟨?_, ?_, ?_⟩
  · show ((runAgg rows g s).perPersonCounts.map Prod.snd).sum = (runAgg rows g s).total
    unfold runAgg
    rw [foldl_step_sumPerson, foldl_step_total]
    simp [initState]
  · show ((runAgg rows g s).perGroupCounts.map Prod.snd).sum = (runAgg rows g s).total
    unfold runAgg
    rw [foldl_step_sumGroup, foldl_step_total]
    simp [initState]
  · show ((runAgg rows g s).perShiftCounts.map Prod.snd).sum = (runAgg rows g s).total
    unfold runAgg
    rw [foldl_step_sumShift, foldl_step_total]
    simp [initState]

/-! ## Claim C9 -/

/-- **C9.** For the empty record list, with any assignment mappings, the
report has all counts and revenue zero, empty per-person/per-group/per-shift
mappings, an empty people table, an empty alert list, `uniquePeople = 0`,
`avgTrucksPerPerson = 0`, `impoundedRate = 0` and no trend series; the
computation is total, so no error (in particular no division by zero) can
occur. -/
theorem claim_C9_empty_report (g s : List (String × String)) :
    (computeAdvancedAnalytics [] g s).basic.totalTrucks = 0 ∧
    (computeAdvancedAnalytics [] g s).basic.totalImpounded = 0 ∧
    (computeAdvancedAnalytics [] g s).basic.totalRevenue = 0 ∧
    (computeAdvancedAnalytics [] g s).basic.perPerson = [] ∧
    (computeAdvancedAnalytics [] g s).basic.perGroup = [] ∧
    (computeAdvancedAnalytics [] g s).basic.perShift = [] ∧
    (computeAdvancedAnalytics [] g s).basic.peopleRows = [] ∧
    (computeAdvancedAnalytics [] g s).alerts = [] ∧
    (computeAdvancedAnalytics [] g s).stats.uniquePeople = 0 ∧
    (computeAdvancedAnalytics [] g s).stats.avgTrucksPerPerson = 0 ∧
    (computeAdvancedAnalytics [] g s).stats.impoundedRate = 0 ∧
    (computeAdvancedAnalytics [] g s).trends = none :=
  ⟨rfl, rfl, rfl, rfl, rfl, rfl, rfl, rfl, rfl, rfl, rfl, rfl⟩

/-! ## Claim C10 -/

/-- **C10.** The trend series is `null` exactly when the records produce at
most one distinct day-bucket key (`"Unknown Date"` counting as a key); in
particular a dataset whose records all share one day key produces no trend
series at all. -/
theorem claim_C10_trends_gate (rows : List TransactionRecord)
    (g s : List (String × String)) :
    ((computeAdvancedAnalytics rows g s).trends = none ↔
      (distinctDayKeys rows).length ≤ 1) ∧
    (∀ k, (∀ r ∈ rows, dayKeyOf r = k) →
      (computeAdvancedAnalytics rows g s).trends = none) := by
  have htr : (computeAdvancedAnalytics rows g s).trends =
      trendsOf (runAgg rows g s) := rfl
  have hkeys := runAgg_dayKeys rows g s
  constructor
  · rw [htr, trends_none_iff, hkeys]
    exact Iff.rfl
  · intro k hall
    rw [htr, trends_none_iff, hkeys]
    rcases foldl_seenInsert_const dayKeyOf k rows [] hall (Or.inl rfl) with h | h
    · rw [h]; simp
    · rw [h]; simp

/-- Two records on the same calendar day: the trend-series gate of C10 at a
concrete input. -/
def c10rows : List TransactionRecord :=
  [{ date := .str "2024-01-01" }, { date := .str "2024-01-01", impounded := true }]

/-- Witness for C10: a two-record dataset on a single calendar day has no
trend series. -/
theorem claim_C10_trends_gate_witness :
    (computeAdvancedAnalytics c10rows [] []).trends = none :=
  (claim_C10_trends_gate c10rows [] []).2 "2024-01-01" (by decide)

/-! ## Claim C6 -/

/-- All eight fine/amount fields absent. -/
def c6recEmpty : TransactionRecord := {}

/-- `amountDue = 100`, `gvmFine = 50`, the other fine fields absent. -/
def c6recTwo : TransactionRecord := { amountDue := .num 100, gvmFine := .num 50 }

/-- **C6.** The row revenue is the sum of the eight fine/amount columns; a
column whose effective value fails numeric conversion (missing,
non-numeric, unparsable) contributes `0` — never `NaN` — and a column that
converts to a finite number contributes exactly that number.  A record with
all eight fields missing yields `0`; a record with `amountDue = 100` and
`gvmFine = 50` and the rest absent yields `150`. -/
theorem claim_C6_row_revenue :
    (∀ v w : JSVal, toNumber (jsOr v (jsOr w (JSVal.num 0))) = JSNum.nan →
      fineVal v w = 0) ∧
    (∀ (v w : JSVal) (q : ℚ), toNumber (jsOr v (jsOr w (JSVal.num 0))) = JSNum.val q →
      fineVal v w = q) ∧
    (∀ r : TransactionRecord, rowRevenue r =
      fineVal r.amountDue (rawGet r "Amount Due") +
      fineVal r.gvmFine (rawGet r "GVM Fine") +
      fineVal r.d1Fine (rawGet r "D1 Fine") +
      fineVal r.d2Fine (rawGet r "D2 Fine") +
      fineVal r.d3Fine (rawGet r "D3 Fine") +
      fineVal r.d4Fine (rawGet r "D4 Fine") +
      fineVal r.awkwardLoadFine (rawGet r "Awkward Load Fine") +
      fineVal r.amountDueDriver (rawGet r "Amount Due Driver")) ∧
    rowRevenue c6recEmpty = 0 ∧ rowRevenue c6recTwo = 150 := by
  refine ⟨?_, ?_, fun r => rfl, ?_, ?_⟩
  · intro v w h
    unfold fineVal
    rw [h]
    rfl
  · intro v w q h
    unfold fineVal
    rw [h]
    rfl
  · with_unfolding_all decide
  · with_unfolding_all decide

/-- Witness for C6: a non-numeric string in a fine column contributes `0`,
and the two concrete records of the claim evaluate as stated. -/
theorem claim_C6_row_revenue_witness :
    fineVal (JSVal.str "not-a-number") JSVal.undefined = 0 ∧
    rowRevenue c6recTwo = 150 :=
  ⟨claim_C6_row_revenue.1 (JSVal.str "not-a-number") JSVal.undefined
      (by with_unfolding_all decide),
    claim_C6_row_revenue.2.2.2.2⟩

/-! ## Claim C7 -/

/-- A single impounded record, exercising the positive-total branch of the
impound rate. -/
def c7rows : List TransactionRecord := [{ impounded := true }]

/-- **C7.** The impound rate is always in `[0, 100]`; it is `0` for the
empty record list, and equals `(impounded count / total count) * 100`
whenever the total is positive. -/
theorem claim_C7_impounded_rate (rows : List TransactionRecord)
    (g s : List (String × String)) :
    0 ≤ (computeAdvancedAnalytics rows g s).stats.impoundedRate ∧
    (computeAdvancedAnalytics rows g s).stats.impoundedRate ≤ 100 ∧
    (rows = [] → (computeAdvancedAnalytics rows g s).stats.impoundedRate = 0) ∧
    (0 < (computeAdvancedAnalytics rows g s).basic.totalTrucks →
      (computeAdvancedAnalytics rows g s).stats.impoundedRate =
        ((computeAdvancedAnalytics rows g s).basic.totalImpounded : ℚ) /
          ((computeAdvancedAnalytics rows g s).basic.totalTrucks : ℚ) * 100) := by
  have hr : (computeAdvancedAnalytics rows g s).stats.impoundedRate =
      impoundedRateOf (runAgg rows g s) := rfl
  have htt : (computeAdvancedAnalytics rows g s).basic.totalTrucks =
      (runAgg rows g s).total := rfl
  have hti : (computeAdvancedAnalytics rows g s).basic.totalImpounded =
      (runAgg rows g s).totalImpounded := rfl
  have hle : (runAgg rows g s).totalImpounded ≤ (runAgg rows g s).total :=
    runAgg_impounded_le_total rows g s
  rw [hr, htt, hti]
  unfold impoundedRateOf
  by_cases ht : (runAgg rows g s).total > 0
  · rw [if_pos ht]
    have htq : (0 : ℚ) < ((runAgg rows g s).total : ℚ) := by
      exact_mod_cast ht
    have h01 : ((runAgg rows g s).totalImpounded : ℚ) /
        ((runAgg rows g s).total : ℚ) ≤ 1 := by
      rw [div_le_one htq]
      exact_mod_cast hle
    refine ⟨?_, ?_, ?_, fun _ => rfl⟩
    · apply mul_nonneg
      · apply div_nonneg
        · exact_mod_cast Nat.zero_le _
        · exact le_of_lt htq
      · norm_num
    · calc ((runAgg rows g s).totalImpounded : ℚ) /
            ((runAgg rows g s).total : ℚ) * 100 ≤ 1 * 100 := by
            apply mul_le_mul_of_nonneg_right h01
            norm_num
        _ = 100 := by norm_num
    · intro hrows
      exfalso
      rw [hrows] at ht
      rw [runAgg_total] at ht
      simp at ht
  · rw [if_neg ht]
    exact ⟨le_refl 0, by norm_num, fun _ => rfl, fun hpos => absurd hpos ht⟩

/-- Witness for C7: the single impounded record has a positive total, and
its rate is given by the quotient formula. -/
theorem claim_C7_impounded_rate_witness :
    (computeAdvancedAnalytics c7rows [] []).stats.impoundedRate =
      ((computeAdvancedAnalytics c7rows [] []).basic.totalImpounded : ℚ) /
        ((computeAdvancedAnalytics c7rows [] []).basic.totalTrucks : ℚ) * 100 :=
  (claim_C7_impounded_rate c7rows [] []).2.2.2 (by decide)

/-! ## Claim C8 -/

/-- Twenty records, all impounded: impound rate `100`. -/
def c8rows : List TransactionRecord :=
  List.replicate 20 { impounded := true }

/-- **C8.** The impound-rate alert tiers: a rate above `15` produces exactly
one "danger" impound alert and no "warning" impound alert, a rate in
`(10, 15]` produces exactly one "warning" impound alert and no "danger"
alert, a rate of at most `10` produces neither, and the two tiers are
mutually exclusive. -/
theorem claim_C8_impound_alert_tiers (rows : List TransactionRecord)
    (g s : List (String × String)) :
    ((computeAdvancedAnalytics rows g s).stats.impoundedRate > 15 →
      ((computeAdvancedAnalytics rows g s).alerts.count
        (AlertMsg.mk "danger" "High Impound Rate Alert") = 1 ∧
      AlertMsg.mk "warning" "Elevated Impound Rate" ∉
        (computeAdvancedAnalytics rows g s).alerts)) ∧
    ((computeAdvancedAnalytics rows g s).stats.impoundedRate ≤ 15 →
      AlertMsg.mk "danger" "High Impound Rate Alert" ∉
        (computeAdvancedAnalytics rows g s).alerts) ∧
    ((computeAdvancedAnalytics rows g s).stats.impoundedRate ≤ 15 →
      (computeAdvancedAnalytics rows g s).stats.impoundedRate > 10 →
      (computeAdvancedAnalytics rows g s).alerts.count
        (AlertMsg.mk "warning" "Elevated Impound Rate") = 1) ∧
    ((computeAdvancedAnalytics rows g s).stats.impoundedRate ≤ 10 →
      AlertMsg.mk "warning" "Elevated Impound Rate" ∉
        (computeAdvancedAnalytics rows g s).alerts) ∧
    ¬(AlertMsg.mk "danger" "High Impound Rate Alert" ∈
        (computeAdvancedAnalytics rows g s).alerts ∧
      AlertMsg.mk "warning" "Elevated Impound Rate" ∈
        (computeAdvancedAnalytics rows g s).alerts) := by
  have hal : (computeAdvancedAnalytics rows g s).alerts =
      alertsOf g s (runAgg rows g s) := rfl
  have hr : (computeAdvancedAnalytics rows g s).stats.impoundedRate =
      impoundedRateOf (runAgg rows g s) := rfl
  rw [hal, hr]
  simp only [alertsOf]
  split_ifs with h15 hperf hun hun h10 hperf hun hun hperf hun hun <;>
    simp [List.count_append, List.count_cons, List.count_nil, List.mem_append] <;>
    (try constructor) <;> (try intro hh) <;> linarith

/-- Witness for C8: twenty all-impounded records give rate `100 > 15`,
hence exactly one "danger" impound alert and no "warning" impound alert. -/
theorem claim_C8_impound_alert_tiers_witness :
    (computeAdvancedAnalytics c8rows [] []).alerts.count
      (AlertMsg.mk "danger" "High Impound Rate Alert") = 1 ∧
    AlertMsg.mk "warning" "Elevated Impound Rate" ∉
      (computeAdvancedAnalytics c8rows [] []).alerts :=
  (claim_C8_impound_alert_tiers c8rows [] []).1 (by with_unfolding_all decide)

/-! ## Claim C2 -/

/-- A single record whose person field is the placeholder `"n/a"`. -/
def c2rows : List TransactionRecord := [{ person := .str "n/a" }]

/-- **C2.** A record whose resolved person name is `"Unknown"` or a
placeholder is bucketed under the person key `"Unknown"` (the resolver never
returns any other placeholder); that key is excluded from the `uniquePeople`
count and from the `topPerformer`/`topRevenuePerformer` selections (whose
results are always eligible, i.e. truthy, non-placeholder and not
`"Unknown"`, apart from the `['', 0]` initial accumulator); yet the record
still counts in `totalTrucks` and still yields a `"Unknown"` row in the
per-person table. -/
theorem claim_C2_placeholder_person (rows : List TransactionRecord)
    (g s : List (String × String)) (r : TransactionRecord) (hr : r ∈ rows)
    (hp : resolvePersonName r = "Unknown" ∨
      isPlaceholderName (.str (resolvePersonName r)) = true) :
    resolvePersonName r = "Unknown" ∧
    (computeAdvancedAnalytics rows g s).stats.uniquePeople =
      (((computeAdvancedAnalytics rows g s).basic.peopleRows.map
        PersonRow.person).filter
        (fun p => !isPlaceholderName (.str p) && p != "Unknown")).length ∧
    (∀ p, (computeAdvancedAnalytics rows g s).stats.topPerformer = some p →
      eligiblePerson p.person = true) ∧
    (topRevenueEntryOf (runAgg rows g s) = ("", 0) ∨
      eligiblePerson (topRevenueEntryOf (runAgg rows g s)).1 = true) ∧
    (computeAdvancedAnalytics rows g s).basic.totalTrucks = rows.length ∧
    "Unknown" ∈ (computeAdvancedAnalytics rows g s).basic.peopleRows.map
      PersonRow.person := by
  have hres : resolvePersonName r = "Unknown" := by
    rcases hp with h | h
    · exact h
    · exact resolve_eq_unknown_of_placeholder r h
  have hnames : (computeAdvancedAnalytics rows g s).basic.peopleRows.map
      PersonRow.person =
      sortStrings ((runAgg rows g s).perPersonCounts.map Prod.fst) := by
    show (peopleRowsOf g s (runAgg rows g s)).map PersonRow.person = _
    unfold peopleRowsOf
    rw [List.map_map]
    exact List.map_id _
  refine ⟨hres, ?_, ?_, ?_, ?_, ?_⟩
  · rw [hnames]
    show uniquePeopleOf (runAgg rows g s) = _
    unfold uniquePeopleOf
    exact (((perm_sortLe strLe _).filter _).length_eq).symm
  · intro p hp2
    have htp : (computeAdvancedAnalytics rows g s).stats.topPerformer =
        topPerformerOf (peopleRowsOf g s (runAgg rows g s)) := rfl
    rw [htp] at hp2
    unfold topPerformerOf at hp2
    rcases tpFold_spec ((peopleRowsOf g s (runAgg rows g s)).filter
        (fun p => eligiblePerson p.person)) none with ⟨heq, _⟩ |
      ⟨l1, p', l2, hsplit, hresf, _, _, _⟩
    · rw [heq] at hp2; cases hp2
    · rw [hresf] at hp2
      have hpp : p' = p := by
        injection hp2
      subst hpp
      have hmem : p' ∈ (peopleRowsOf g s (runAgg rows g s)).filter
          (fun p => eligiblePerson p.person) := by
        rw [hsplit]
        exact List.mem_append_right _ (List.mem_cons_self _ _)
      exact (List.mem_filter.mp hmem).2
  · unfold topRevenueEntryOf
    rcases entFold_spec ((jsEntriesQ (runAgg rows g s).perPersonRevenue).filter
        (fun e => eligiblePerson e.1)) ("", 0) with ⟨heq, _⟩ |
      ⟨l1, e, l2, hsplit, hresf, _, _, _⟩
    · exact Or.inl heq
    · right
      rw [hresf]
      have hmem : e ∈ (jsEntriesQ (runAgg rows g s).perPersonRevenue).filter
          (fun e => eligiblePerson e.1) := by
        rw [hsplit]
        exact List.mem_append_right _ (List.mem_cons_self _ _)
      exact (List.mem_filter.mp hmem).2
  · show (runAgg rows g s).total = rows.length
    exact runAgg_total rows g s
  · rw [hnames, mem_sortStrings, runAgg_personKeys]
    rw [← hres]
    exact self_mem_foldl_seenInsert resolvePersonName rows [] r hr

/-- Witness for C2: the `"n/a"` record resolves to `"Unknown"` and still
produces a `"Unknown"` row in the per-person table. -/
theorem claim_C2_placeholder_person_witness :
    "Unknown" ∈ (computeAdvancedAnalytics c2rows [] []).basic.peopleRows.map
      PersonRow.person :=
  (claim_C2_placeholder_person c2rows [] [] { person := .str "n/a" }
    (List.mem_singleton.mpr rfl) (Or.inr (by decide))).2.2.2.2.2

/-! ## Claim C3 -/

/-- A record with an unparsable date. -/
def c3badRec : TransactionRecord := { date := .str "not-a-date" }

/-- One parsable and one unparsable date: two day buckets, so the trend
series exists. -/
def c3rows : List TransactionRecord :=
  [{ date := .str "2024-01-03" }, c3badRec]

/-- **C3 (counterexample).** The claim says the `"Unknown Date"` bucket
never appears in the trend series.  With one dated and one undated record
the series exists and its dates do contain `"Unknown Date"`, while both
records count toward the total. -/
theorem claim_C3_counterexample :
    (computeAdvancedAnalytics c3rows [] []).basic.totalTrucks = 2 ∧
    (computeAdvancedAnalytics c3rows [] []).trends ≠ none ∧
    "Unknown Date" ∈
      ((computeAdvancedAnalytics c3rows [] []).trends.getD ⟨[], [], []⟩).dates := by
  with_unfolding_all decide

/-- **C3 (amended).** Records with an unparsable or missing date are keyed
`"Unknown Date"` and still count toward `totalTrucks`; the bucket is *not*
excluded from the trend series: whenever the series exists, any record with
day key `"Unknown Date"` puts that key into the series dates.  The claim's
single-record boundary case still holds, but only because a lone bucket
yields no series at all: one record with date `"not-a-date"` is counted,
keyed `"Unknown Date"`, and the trend series is `null`. -/
theorem claim_C3_unknown_date_bucket (rows : List TransactionRecord)
    (g s : List (String × String)) :
    (computeAdvancedAnalytics rows g s).basic.totalTrucks = rows.length ∧
    (∀ r ∈ rows, dayKeyOf r = "Unknown Date" → ∀ t,
      (computeAdvancedAnalytics rows g s).trends = some t →
      "Unknown Date" ∈ t.dates) ∧
    ((computeAdvancedAnalytics [c3badRec] [] []).basic.totalTrucks = 1 ∧
      (computeAdvancedAnalytics [c3badRec] [] []).dailyActivity.map Prod.fst =
        ["Unknown Date"] ∧
      (computeAdvancedAnalytics [c3badRec] [] []).trends = none) := by
  refine ⟨?_, ?_, by decide⟩
  · show (runAgg rows g s).total = rows.length
    exact runAgg_total rows g s
  · intro r hr hkey t ht
    have ht2 : trendsOf (runAgg rows g s) = some t := ht
    rw [trends_dates_of_some (runAgg rows g s) t ht2]
    refine List.mem_map.mpr ⟨"Unknown Date", ?_, by simp [displayDate]⟩
    rw [mem_sortStrings, runAgg_dayKeys]
    rw [← hkey]
    exact self_mem_foldl_seenInsert dayKeyOf rows [] r hr

/-- Witness for C3 (amended): in the two-record example the series exists
and contains `"Unknown Date"`. -/
theorem claim_C3_unknown_date_bucket_witness :
    "Unknown Date" ∈ (Trends.mk ["1/3/2024", "Unknown Date"] [1, 1] [0, 0]).dates :=
  (claim_C3_unknown_date_bucket c3rows [] []).2.1 c3badRec (by decide) (by decide)
    (Trends.mk ["1/3/2024", "Unknown Date"] [1, 1] [0, 0]) (by decide)

/-! ## Claim C5 -/

/-- A record whose date string carries an explicit `-05:00` offset: its own
calendar date is `2024-01-01`, but the UTC instant falls on `2024-01-02`. -/
def c5rec : TransactionRecord := { date := .str "2024-01-01T23:30:00-05:00" }

/-- **C5 (counterexample).** The claim says the day-bucket key is the
record's local calendar date.  For `"2024-01-01T23:30:00-05:00"` — whose
local (offset `-05:00`) calendar date is `2024-01-01` — the key is the UTC
date `2024-01-02` instead: `toISOString()` renders UTC. -/
theorem claim_C5_counterexample :
    dayKeyOf c5rec = "2024-01-02" ∧
    (computeAdvancedAnalytics [c5rec] [] []).dailyActivity.map Prod.fst =
      ["2024-01-02"] ∧
    ("2024-01-02" : String) ≠ "2024-01-01" := by
  with_unfolding_all decide

/-- **C5 (amended).** For a record whose (truthy) date field parses to the
epoch instant `ms`, the day-bucket key is the *UTC* calendar date of `ms`
in `YYYY-MM-DD` form (the date part of `toISOString()`), and that key is a
day bucket of the report. -/
theorem claim_C5_utc_day_key (rows : List TransactionRecord)
    (g s : List (String × String)) (r : TransactionRecord) (hr : r ∈ rows)
    (ms : Int) (ht : truthy (dateStrOf r) = true)
    (hp : jsParseDate (dateStrOf r) = some ms) :
    dayKeyOf r = isoDateString ms ∧
    dayKeyOf r ∈
      (computeAdvancedAnalytics rows g s).dailyActivity.map Prod.fst := by
  constructor
  · simp [dayKeyOf, ht, hp]
  · have hdaily : (computeAdvancedAnalytics rows g s).dailyActivity =
        (runAgg rows g s).dailyActivity := rfl
    rw [hdaily, runAgg_dayKeys]
    exact self_mem_foldl_seenInsert dayKeyOf rows [] r hr

/-- Witness for C5 (amended): the `-05:00` record parses to epoch
`1704169800000` (2024-01-02T04:30Z) and is keyed by that UTC date. -/
theorem claim_C5_utc_day_key_witness :
    dayKeyOf c5rec = isoDateString 1704169800000 :=
  (claim_C5_utc_day_key [c5rec] [] [] c5rec (List.mem_singleton.mpr rfl)
    1704169800000 (by decide) (by decide)).1

/-! ## Claim C4 -/

/-- The per-person table is sorted by person name. -/
theorem peopleRows_sorted (g s : List (String × String)) (st : AggState) :
    (peopleRowsOf g s st).Pairwise
      (fun a b => strLe a.person b.person = true) := by
  unfold peopleRowsOf
  have hsorted := pairwise_sortLe strLe strLe_total strLe_trans
    (st.perPersonCounts.map Prod.fst)
  exact hsorted.map _ (fun a b h => h)

/-- Two tied persons, `"Bob"` seen first: under the claim's tie-break the
top performer would be `"Bob"`. -/
def c4rows : List TransactionRecord :=
  [{ person := .str "Bob" }, { person := .str "Alice" }]

/-- The row the code actually selects in `c4rows`. -/
def c4aliceRow : PersonRow := ⟨"Alice", "Unassigned", "Unassigned", 1, 0, 0⟩

/-- The row the claim predicts in `c4rows`. -/
def c4bobRow : PersonRow := ⟨"Bob", "Unassigned", "Unassigned", 1, 0, 0⟩

/-- **C4 (counterexample).** With `"Bob"` then `"Alice"` each holding one
record (a tie at the maximum), the claim's first-seen-wins tie-break would
select `"Bob"`; the code selects `"Alice"`, because `topPerformer` scans the
alphabetically sorted `peopleRows`. -/
theorem claim_C4_counterexample :
    (computeAdvancedAnalytics c4rows [] []).basic.perPerson =
      [("Bob", 1), ("Alice", 1)] ∧
    (computeAdvancedAnalytics c4rows [] []).stats.topPerformer.map
      PersonRow.person = some "Alice" ∧
    ("Alice" : String) ≠ "Bob" := by
  with_unfolding_all decide

/-- **C4 (amended).** `topPerformer` breaks ties *alphabetically*: it is an
eligible row of maximal count, and among tied rows its person name is
`≤` every tied name (the scan runs over the sorted `peopleRows`).
`topRevenuePerformer` does break ties first-seen-wins: the per-person
revenue keys are in first-seen order of the records, and the selected entry
(when not the `['', 0]` initial accumulator) splits the eligible entries
into a strictly smaller prefix and a no-larger suffix.  (The hypothesis
excludes integer-like person names, which JS property enumeration would
reorder.) -/
theorem claim_C4_tiebreaks (rows : List TransactionRecord)
    (g s : List (String × String))
    (hidx : ∀ r ∈ rows, isArrayIndexStr (resolvePersonName r) = false) :
    (∀ p, (computeAdvancedAnalytics rows g s).stats.topPerformer = some p →
      p ∈ (computeAdvancedAnalytics rows g s).basic.peopleRows.filter
          (fun q => eligiblePerson q.person) ∧
      (∀ q ∈ (computeAdvancedAnalytics rows g s).basic.peopleRows.filter
          (fun q => eligiblePerson q.person), q.trucks ≤ p.trucks) ∧
      (∀ q ∈ (computeAdvancedAnalytics rows g s).basic.peopleRows.filter
          (fun q => eligiblePerson q.person), q.trucks = p.trucks →
        strLe p.person q.person = true)) ∧
    ((computeAdvancedAnalytics rows g s).basic.perPersonRevenue.map Prod.fst =
      rows.foldl (fun ac r => seenInsert (resolvePersonName r) ac) []) ∧
    (topRevenueEntryOf (runAgg rows g s) = ("", 0) ∨
      ∃ l1 l2,
        (computeAdvancedAnalytics rows g s).basic.perPersonRevenue.filter
            (fun e => eligiblePerson e.1) =
          l1 ++ topRevenueEntryOf (runAgg rows g s) :: l2 ∧
        (∀ y ∈ l1, y.2 < (topRevenueEntryOf (runAgg rows g s)).2) ∧
        (∀ y ∈ l2, y.2 ≤ (topRevenueEntryOf (runAgg rows g s)).2)) := by
  refine ⟨?_, ?_, ?_⟩
  · intro p hp2
    have htp : (computeAdvancedAnalytics rows g s).stats.topPerformer =
        topPerformerOf (peopleRowsOf g s (runAgg rows g s)) := rfl
    have hpr : (computeAdvancedAnalytics rows g s).basic.peopleRows =
        peopleRowsOf g s (runAgg rows g s) := rfl
    rw [htp] at hp2
    rw [hpr]
    unfold topPerformerOf at hp2
    rcases tpFold_spec ((peopleRowsOf g s (runAgg rows g s)).filter
        (fun q => eligiblePerson q.person)) none with ⟨heq, _⟩ |
      ⟨l1, p', l2, hsplit, hres, _, hl1, hl2⟩
    · rw [heq] at hp2; cases hp2
    · rw [hres] at hp2
      have hpp : p' = p := by injection hp2
      subst hpp
      have hsortf : ((peopleRowsOf g s (runAgg rows g s)).filter
          (fun q => eligiblePerson q.person)).Pairwise
          (fun a b => strLe a.person b.person = true) :=
        List.Pairwise.sublist (List.filter_sublist _)
          (peopleRows_sorted g s (runAgg rows g s))
      refine ⟨?_, ?_, ?_⟩
      · rw [hsplit]
        exact List.mem_append_right _ (List.mem_cons_self _ _)
      · intro q hq
        rw [hsplit] at hq
        rcases List.mem_append.mp hq with hq1 | hq2
        · exact Nat.le_of_lt (hl1 q hq1)
        · rcases List.mem_cons.mp hq2 with rfl | hq3
          · exact Nat.le_refl _
          · exact hl2 q hq3
      · intro q hq htie
        rw [hsplit] at hq hsortf
        rcases List.mem_append.mp hq with hq1 | hq2
        · exact absurd htie (by have := hl1 q hq1; omega)
        · rcases List.mem_cons.mp hq2 with rfl | hq3
          · exact strLe_refl _
          · rcases List.pairwise_append.mp hsortf with ⟨_, hp2l, _⟩
            rcases List.pairwise_cons.mp hp2l with ⟨hpl2, _⟩
            exact hpl2 q hq3
  · show (runAgg rows g s).perPersonRevenue.map Prod.fst = _
    exact runAgg_personRevKeys rows g s
  · have hnd : ((runAgg rows g s).perPersonRevenue.map Prod.fst).Nodup := by
      rw [runAgg_personRevKeys]
      exact nodup_foldl_seenInsert _ _ _ List.nodup_nil
    have hidx2 : ∀ k ∈ (runAgg rows g s).perPersonRevenue.map Prod.fst,
        isArrayIndexStr k = false := by
      intro k hk
      rw [runAgg_personRevKeys] at hk
      rcases mem_foldl_seenInsert_src _ _ _ _ hk with h | ⟨r, hr, rfl⟩
      · cases h
      · exact hidx r hr
    have htre : topRevenueEntryOf (runAgg rows g s) =
        ((runAgg rows g s).perPersonRevenue.filter
          (fun e => eligiblePerson e.1)).foldl entStepQ ("", 0) := by
      unfold topRevenueEntryOf
      rw [jsEntriesQ_id _ hnd hidx2]
    rcases entFold_spec ((runAgg rows g s).perPersonRevenue.filter
        (fun e => eligiblePerson e.1)) ("", 0) with ⟨heq, _⟩ |
      ⟨l1, e, l2, hsplit, hres, _, hl1, hl2⟩
    · left
      rw [htre]
      exact heq
    · right
      have hee : topRevenueEntryOf (runAgg rows g s) = e := htre.trans hres
      refine ⟨l1, l2, ?_, ?_, ?_⟩
      · rw [hee]
        exact hsplit
      · rw [hee]
        exact hl1
      · rw [hee]
        exact hl2

/-- Witness for C4 (amended): in the tie of `c4rows` the selected row is
alphabetically `≤` the tied row (`"Alice" ≤ "Bob"`). -/
theorem claim_C4_tiebreaks_witness : strLe "Alice" "Bob" = true := by
  have h := (claim_C4_tiebreaks c4rows [] [] (by decide)).1 c4aliceRow
    (by with_unfolding_all decide)
  exact h.2.2 c4bobRow (by with_unfolding_all decide) (by decide)

end Jyuratodus
